import Mathlib

/-!
# collective_comm_demo: ring topology and five-phase exchange

Shallow embedding of `apps/collective_comm_demo/src/collective_comm_demo.c`.

* C `int` values are `Int` in the range `[INT_MIN, INT_MAX]`; `%` is C's truncating
  remainder `Int.tmod`; the result of every `int` addition and multiplication that can leave
  the range is wrapped to 32 bits (`wrap_int`).
* `neighbor_rank` is the function of lines 5-11; `resolve_spec_trunc` and
  `resolve_spec_floor` are the formula of the specification on mathematical integers.
* `main` is lines 13-90 on one rank, as the exit status and the sequence of calls it makes;
  `run` is `main` on every rank of the world.
* The MPI library is not part of the sources. What the program relies on is taken from the
  specification: matching by `(peer, tag)` (`matches_recv`, `deliver`), `wait_any` over a
  shrinking request set (`wait_any`) and the sum reduction (`allreduce_sum`). Which pending
  receive completes first is a parameter (`choice`), so every completion order is covered.
* The `int` objects whose addresses are handed to non-blocking operations are kept in a
  `Memory` that records, per object, its value and whether its lifetime has ended. A posted
  send carries the address of its buffer, and what a receive obtains is read from that
  buffer in the memory of the sender.
-/

namespace CollectiveCommDemo

/-! ## Definitions -/

/-- Smallest value of a 32-bit C `int`. -/
def INT_MIN : Int := -2147483648

/-- Largest value of a 32-bit C `int`. -/
def INT_MAX : Int := 2147483647

/-- Two's-complement wrap-around of a mathematical integer to a 32-bit `int`. -/
def wrap_int (x : Int) : Int := (x + 2147483648) % 4294967296 - 2147483648

/-- Line 6: the value of `target` after `int target = (rank + offset) % size;`, the `int` sum
being wrapped to 32 bits. -/
def neighbor_rank_target (rank size offset : Int) : Int :=
  (wrap_int (rank + offset)).tmod size

/-- Lines 5-11: `target = (rank + offset) % size; if (target < 0) target += size;` on 32-bit
integers: the sum and the adjustment wrap. -/
def neighbor_rank (rank size offset : Int) : Int :=
  let target := neighbor_rank_target rank size offset
  if target < 0 then wrap_int (target + size) else target

/-- The formula of the specification, `((rank + offset) mod size + size) mod size`, with `mod`
read as the truncating remainder of C. -/
def resolve_spec_trunc (rank size offset : Int) : Int :=
  (((rank + offset).tmod size) + size).tmod size

/-- The formula of the specification, `((rank + offset) mod size + size) mod size`, with `mod`
read as the mathematical (non-negative) remainder. -/
def resolve_spec_floor (rank size offset : Int) : Int :=
  ((rank + offset) % size + size) % size

/-! ### Constants and the world -/

/-- Exit status `EXIT_FAILURE` of `stdlib.h`. -/
def EXIT_FAILURE : Int := 1

/-- Exit status `EXIT_SUCCESS` of `stdlib.h`. -/
def EXIT_SUCCESS : Int := 0

/-- Line 54: `const int message_count = 3;`. -/
def message_count : Nat := 3

/-- The ranks of a world of `world_size` processes: `0, 1, ..., world_size - 1`. -/
def ranks (world_size : Int) : List Int :=
  (List.range world_size.toNat).map Int.ofNat

/-! ### Objects handed to non-blocking operations -/

/-- An `int` object of `main`: its value (`none` while uninitialised) and whether its lifetime
is still running. -/
structure IntObject where
  value : Option Int
  live : Bool
  deriving DecidableEq

/-- The `int` objects one rank has created so far; an address is a position in the list. -/
abbrev Memory := List IntObject

/-- Entry into the block that declares an `int` object; returns the memory and the address of
the new object. -/
def Memory.declare (mem : Memory) (value : Option Int) : Memory × Nat :=
  (mem ++ [{ value := value, live := true }], mem.length)

/-- End of the block that declares the object at `addr`: its lifetime ends. -/
def Memory.end_lifetime (mem : Memory) (addr : Nat) : Memory :=
  mem.modify (fun o => { o with live := false }) addr

/-- Value read through a pointer to `addr`: defined only for a live, initialised object. -/
def Memory.read (mem : Memory) (addr : Nat) : Option Int :=
  match mem[addr]? with
  | some o => if o.live then o.value else none
  | none => none

/-- Whether `addr` designates an object whose lifetime has not ended. -/
def Memory.is_live (mem : Memory) (addr : Nat) : Bool :=
  match mem[addr]? with
  | some o => o.live
  | none => false

/-! ### Messages and matching -/

/-- A posted send (`MPI_Isend`): issuing rank, destination, tag, and the address of the send
buffer in the memory of the issuing rank. The program hands over the address, not a value. -/
structure Send where
  src : Int
  dst : Int
  tag : Int
  buf : Nat
  deriving DecidableEq

/-- A posted receive (`MPI_Irecv`) as the communicator sees it: issuing rank, expected source
and tag. -/
structure Recv where
  owner : Int
  src : Int
  tag : Int
  deriving DecidableEq

/-- A pending receive request: the address of its buffer and the posted receive. -/
structure RecvRequest where
  buf : Nat
  recv : Recv
  deriving DecidableEq

/-- A pending send request is the posted send, which holds the address of its buffer. -/
abbrev SendRequest := Send

/-- Modelled from the spec: matching of the external Communicator, by `(peer, tag)` pair: a
send matches a receive when it is addressed to the receiving rank, comes from the source the
receive names and carries the same tag. -/
def matches_recv (rv : Recv) (m : Send) : Bool :=
  decide (m.dst = rv.owner) && decide (m.src = rv.src) && decide (m.tag = rv.tag)

/-- Modelled from the spec: completion of a receive of the external Communicator. The receive
buffer is populated with what the buffer of the matching send holds; the send buffer has to
stay stable from the posting of the send to the wait that completes it, so it is read in
`sender_memory s`, the memory of the sending rank `s` when it enters that wait. The result is
`none` when no posted send matches (the wait never returns) and when the send buffer cannot
be read then (the value received is not determined by the program). -/
def deliver (sends : List Send) (sender_memory : Int → Memory) (rv : Recv) : Option Int :=
  (sends.find? (matches_recv rv)).bind (fun m => Memory.read (sender_memory m.src) m.buf)

/-! ### The buffers of `main` -/

/-- Line 37: `send_value = world_rank`. -/
def send_value (world_rank : Int) : Int := world_rank

/-- Address of `send_value` (line 37), an object of the body of `main`. -/
def addr_send_value : Nat := 0

/-- Address of `recv_value` (line 38), an object of the body of `main`. -/
def addr_recv_value : Nat := 1

/-- Address of `waitany_values[i]` (line 55), an element of an array of the body of `main`. -/
def addr_waitany_values (i : Nat) : Nat := 2 + i

/-- Address of the object `payload` (line 65) of iteration `i` of the send loop: the objects of
the body of `main` take the addresses 0 to 4 and every iteration creates one more object. -/
def addr_payload (i : Nat) : Nat := 5 + i

/-- The buffers declared in the body of `main` (lines 37, 38 and 55): they live until `main`
returns. `send_value` holds `world_rank`, `recv_value` holds -1 and the elements of
`waitany_values` are uninitialised. -/
def main_objects (world_rank : Int) : Memory :=
  [{ value := some (send_value world_rank), live := true }, { value := some (-1), live := true }]
    ++ List.replicate message_count { value := none, live := true }

/-! ### Phase 2 (lines 36-46): ring exchange -/

/-- Line 41: `right = neighbor_rank(world_rank, world_size, +1)`. -/
def right (world_rank world_size : Int) : Int := neighbor_rank world_rank world_size 1

/-- Line 42: `left = neighbor_rank(world_rank, world_size, -1)`. -/
def left (world_rank world_size : Int) : Int := neighbor_rank world_rank world_size (-1)

/-- Line 44: the receive posted from `left` with tag 100. -/
def ring_recv (world_rank world_size : Int) : Recv :=
  { owner := world_rank, src := left world_rank world_size, tag := 100 }

/-- Line 45: the send posted to `right` with tag 100, of the buffer `&send_value`. -/
def ring_send (world_rank world_size : Int) : Send :=
  { src := world_rank, dst := right world_rank world_size, tag := 100,
    buf := addr_send_value }

/-- Lines 44-45: `ring_requests[0]` is bound to `recv_value`, `ring_requests[1]` to
`send_value`. -/
def ring_requests (world_rank world_size : Int) : RecvRequest × SendRequest :=
  ({ buf := addr_recv_value, recv := ring_recv world_rank world_size },
   ring_send world_rank world_size)

/-- The ring sends posted by all ranks of the world. -/
def posted_ring_sends (world_size : Int) : List Send :=
  (ranks world_size).map (fun s => ring_send s world_size)

/-- Content of `recv_value` of rank `world_rank` when the wait-all of line 46 returns. Every
sender enters that wait with the objects of the body of `main`. -/
def recv_value (world_rank world_size : Int) : Option Int :=
  deliver (posted_ring_sends world_size) main_objects (ring_recv world_rank world_size)

/-! ### Phase 4 (lines 53-77): multi-request exchange -/

/-- State of one rank while the two posting loops of phase 4 run. -/
structure Phase4 where
  mem : Memory
  waitany_requests : List RecvRequest
  send_requests : List SendRequest
  deriving DecidableEq

/-- Lines 60-61: the receive of iteration `i`, from `src = neighbor_rank(world_rank,
world_size, -(i + 1))` with tag `200 + i`. -/
def multi_recv (world_rank world_size : Int) (i : Nat) : Recv :=
  let src := neighbor_rank world_rank world_size (-((i : Int) + 1))
  { owner := world_rank, src := src, tag := 200 + (i : Int) }

/-- Line 65: the initial value of `payload`, `world_rank * 10 + i` on 32-bit integers. -/
def payload_value (world_rank : Int) (i : Nat) : Int :=
  wrap_int (wrap_int (world_rank * 10) + (i : Int))

/-- Lines 64 and 66: the send of iteration `i`, to `dst = neighbor_rank(world_rank,
world_size, +(i + 1))` with tag `200 + i`, of the buffer `&payload` at address `buf`. -/
def multi_send (world_rank world_size : Int) (i : Nat) (buf : Nat) : Send :=
  let dst := neighbor_rank world_rank world_size ((i : Int) + 1)
  { src := world_rank, dst := dst, tag := 200 + (i : Int), buf := buf }

/-- Lines 60-61: iteration `i` of the receive loop; the buffer is `waitany_values[i]`. -/
def recv_loop_body (world_rank world_size : Int) (st : Phase4) (i : Nat) : Phase4 :=
  { st with waitany_requests := st.waitany_requests ++
      [{ buf := addr_waitany_values i, recv := multi_recv world_rank world_size i }] }

/-- Lines 64-66 and the closing brace of line 67: iteration `i` of the send loop. `payload` is
an object of the loop body: it comes to life with the iteration, holding
`world_rank * 10 + i`, its address is handed to `MPI_Isend`, and its lifetime ends with the
iteration. -/
def send_loop_body (world_rank world_size : Int) (st : Phase4) (i : Nat) : Phase4 :=
  let payload := Memory.declare st.mem (some (payload_value world_rank i))
  { st with mem := Memory.end_lifetime payload.1 payload.2,
            send_requests := st.send_requests ++
              [multi_send world_rank world_size i payload.2] }

/-- Lines 59-67: both posting loops; the state in which line 69 is reached. -/
def phase4_posts (world_rank world_size : Int) : Phase4 :=
  let st0 : Phase4 :=
    { mem := main_objects world_rank, waitany_requests := [], send_requests := [] }
  let st1 := (List.range message_count).foldl (recv_loop_body world_rank world_size) st0
  (List.range message_count).foldl (send_loop_body world_rank world_size) st1

/-- The receives of phase 4 posted by one rank, in index order. -/
def multi_recvs (world_rank world_size : Int) : List Recv :=
  (phase4_posts world_rank world_size).waitany_requests.map (fun q => q.recv)

/-- The sends of phase 4 posted by one rank, in index order. -/
def multi_sends (world_rank world_size : Int) : List Send :=
  (phase4_posts world_rank world_size).send_requests

/-- The phase-4 sends posted by all ranks of the world. -/
def posted_multi_sends (world_size : Int) : List Send :=
  (ranks world_size).flatMap (fun s => multi_sends s world_size)

/-- The phase-4 receives posted by all ranks of the world. -/
def posted_multi_recvs (world_size : Int) : List Recv :=
  (ranks world_size).flatMap (fun r => multi_recvs r world_size)

/-- Content of `waitany_values[i]` of rank `world_rank` once its request has completed. Every
sender enters the wait that completes its sends, the wait-all of line 77, with the memory the
posting loops leave; between line 67 and line 77 no object is created or ended. -/
def waitany_value (world_rank world_size : Int) (i : Nat) : Option Int :=
  ((multi_recvs world_rank world_size)[i]?).bind
    (deliver (posted_multi_sends world_size) (fun s => (phase4_posts s world_size).mem))

/-- Modelled from the spec: `wait_any` of the external Communicator over a request set, given
as the indices of the members not reported so far. With no member left it returns the
sentinel (`none`, `MPI_UNDEFINED` in the source) at once; otherwise it reports one of the
remaining members, the one the environment completes first (`pick` selects it), and that
member leaves the set. -/
def wait_any (pick : Nat) (pending : List Nat) : Option Nat × List Nat :=
  if h : 0 < pending.length then
    let index := pending.get ⟨pick % pending.length, Nat.mod_lt pick h⟩
    (some index, pending.erase index)
  else (none, pending)

/-- State of the drain loop of lines 69-76. `completed` is the variable of the source and
`pending` the members of `waitany_requests` not reported so far; `returned` records the value
of `index` after each call of `MPI_Waitany`, and `heads` records `completed` and `pending` at
each evaluation of the loop condition that enters the body. -/
structure DrainState where
  completed : Nat
  pending : List Nat
  returned : List (Option Nat)
  heads : List (Nat × List Nat)
  deriving DecidableEq

/-- Line 69 with the receive set of line 61: `completed = 0`, all indices pending. -/
def drain_init : DrainState :=
  { completed := 0, pending := List.range message_count, returned := [], heads := [] }

/-- Lines 71-75: one execution of the loop body; `pick` is the choice of the environment in
this call of `MPI_Waitany`. -/
def drain_body (pick : Nat) (st : DrainState) : DrainState :=
  let r := wait_any pick st.pending
  { completed := if r.1.isSome then st.completed + 1 else st.completed
    pending := r.2
    returned := st.returned ++ [r.1]
    heads := st.heads ++ [(st.completed, st.pending)] }

/-- Lines 70-76: `while (completed < message_count)`, with at most `fuel` executions of the
body; `none` when the loop has not exited by then. `choice n` is the choice of the
environment in call number `n` of `MPI_Waitany`. -/
def drain_loop (choice : Nat → Nat) : Nat → DrainState → Option DrainState
  | 0, st => if st.completed < message_count then none else some st
  | fuel + 1, st =>
    if st.completed < message_count then
      drain_loop choice fuel (drain_body (choice st.returned.length) st)
    else some st

/-- Invariant of the drain loop at its head: the pending members are distinct indices below
`message_count`, as many as remain to be counted; one value was returned per completion, each
the index of a member no longer pending, no index twice; and every loop head seen so far had
`message_count - completed > 0` members pending. -/
def DrainInv (st : DrainState) : Prop :=
  st.pending.Nodup ∧ (∀ x ∈ st.pending, x < message_count) ∧
  st.completed + st.pending.length = message_count ∧
  st.returned.length = st.completed ∧
  (∀ x ∈ st.returned, ∃ i, x = some i ∧ i < message_count ∧ i ∉ st.pending) ∧
  st.returned.Nodup ∧
  (∀ h ∈ st.heads, h.2.length = message_count - h.1 ∧ 0 < message_count - h.1) ∧
  st.heads.length = st.completed

/-! ### Phase 5 (lines 79-86): reduction -/

/-- Line 80: `local_sum = send_value`. -/
def local_sum (world_rank : Int) : Int := send_value world_rank

/-- Modelled from the spec: `allreduce` of the external Communicator with operator SUM: the
sum of the values supplied by all ranks. -/
def allreduce_sum (contributions : List Int) : Int := contributions.sum

/-- Lines 81-82: the value of `int global_sum` on rank `world_rank` after the all-reduce in a
world of `world_size` ranks; every rank receives the reduction of all contributions, an
`MPI_INT`, so the sum is wrapped to 32 bits. -/
def global_sum (_world_rank world_size : Int) : Int :=
  wrap_int (allreduce_sum ((ranks world_size).map local_sum))

/-! ### The whole of `main` (lines 13-90) -/

/-- A call one rank makes to the communicator or to the standard streams. -/
inductive Call where
  | init
  | comm_rank
  | comm_size
  | finalize
  | eprint (line : String)
  | print (line : String)
  | barrier
  | irecv (request : RecvRequest)
  | isend (request : SendRequest)
  | waitall (count : Nat)
  | ibarrier
  | wait
  | waitany
  | allreduce (value : Int)
  deriving DecidableEq

/-- Result of `main` on one rank: the exit status and the calls made, in order. -/
structure Outcome where
  status : Int
  calls : List Call
  deriving DecidableEq

/-- The lines written to the standard output. -/
def stdout_lines (calls : List Call) : List String :=
  calls.filterMap (fun c => match c with | .print s => some s | _ => none)

/-- Lines 13-90 on one rank. `world_rank` and `world_size` are what `MPI_Comm_rank` and
`MPI_Comm_size` store, `choice` is the completion order the environment chooses in
`MPI_Waitany`, `reduced` is the value the all-reduce stores in `global_sum`, and `fuel` bounds
the executions of the drain loop. Blocking calls whose peers take part return. -/
def main (world_rank world_size : Int) (choice : Nat → Nat) (reduced : Int) (fuel : Nat) :
    Option Outcome :=
  let start := [Call.init, Call.comm_rank, Call.comm_size]
  if world_size < 2 then
    some { status := EXIT_FAILURE
           calls := start ++
             (if world_rank = 0 then
                [Call.eprint "This demo requires at least two MPI ranks.\n"] else []) ++
             [Call.finalize] }
  else
    let banner :=
      if world_rank = 0 then
        [Call.print ("[collective_comm_demo] world_size=" ++ toString world_size ++ "\n")]
      else []
    let phase1 := [Call.barrier]
    let ring := ring_requests world_rank world_size
    let phase2 := [Call.irecv ring.1, Call.isend ring.2, Call.waitall 2]
    let phase3 := [Call.ibarrier, Call.wait]
    let posts := phase4_posts world_rank world_size
    let phase4_post := posts.waitany_requests.map Call.irecv ++ posts.send_requests.map Call.isend
    match drain_loop choice fuel drain_init with
    | none => none
    | some drained =>
      let phase4_wait :=
        List.replicate drained.returned.length Call.waitany ++ [Call.waitall message_count]
      let phase5 := [Call.allreduce (local_sum world_rank)]
      let report :=
        if world_rank = 0 then
          [Call.print ("[collective_comm_demo] global sum=" ++ toString reduced ++ "\n")]
        else []
      some { status := EXIT_SUCCESS
             calls := start ++ banner ++ phase1 ++ phase2 ++ phase3 ++ phase4_post ++
               phase4_wait ++ phase5 ++ report ++ [Call.finalize] }

/-- One run of the program: `main` on every rank of the world, each with its own completion
order, the all-reduce handing every rank the reduction of all contributions. -/
def run (world_size : Int) (choice : Int → Nat → Nat) (fuel : Nat) : List (Option Outcome) :=
  (ranks world_size).map
    (fun r => main r world_size (choice r) (global_sum r world_size) fuel)

theorem tmod_neg_left (a s : Int) : (-a).tmod s = -(a.tmod s) := by
  rw [Int.tmod_def, Int.tmod_def, Int.neg_tdiv]; ring

theorem tmod_gt_neg (a s : Int) (hs : 0 < s) : -s < a.tmod s := by
  rcases le_or_lt 0 a with h | h
  · have := Int.tmod_nonneg s h; omega
  · have h1 : (-a).tmod s < s := Int.tmod_lt_of_pos _ hs
    rw [tmod_neg_left] at h1; omega

theorem emod_of_decomp (a s r k : Int) (h0 : 0 ≤ r) (h1 : r < s) (h : a = r + s * k) :
    a % s = r := by
  rw [h, Int.add_mul_emod_self_left]; exact Int.emod_eq_of_lt h0 h1

theorem wrap_int_of_range (x : Int) (h0 : INT_MIN ≤ x) (h1 : x ≤ INT_MAX) : wrap_int x = x := by
  unfold INT_MIN at h0; unfold INT_MAX at h1; unfold wrap_int; omega

theorem neighbor_rank_range (rank size offset : Int) (hs : 0 < size) (hmax : size ≤ INT_MAX) :
    0 ≤ neighbor_rank rank size offset ∧ neighbor_rank rank size offset < size := by
  have hlt := Int.tmod_lt_of_pos (wrap_int (rank + offset)) hs
  have hgt := tmod_gt_neg (wrap_int (rank + offset)) size hs
  unfold neighbor_rank neighbor_rank_target
  simp only
  split
  · rw [wrap_int_of_range] <;> (unfold INT_MIN INT_MAX at *; omega)
  · omega

theorem neighbor_rank_eq_emod (rank size offset : Int) (hs : 0 < size) (hmax : size ≤ INT_MAX)
    (hlo : INT_MIN ≤ rank + offset) (hhi : rank + offset ≤ INT_MAX) :
    neighbor_rank rank size offset = (rank + offset) % size := by
  have hd := Int.tmod_add_tdiv (rank + offset) size
  have hlt := Int.tmod_lt_of_pos (rank + offset) hs
  have hgt := tmod_gt_neg (rank + offset) size hs
  unfold neighbor_rank neighbor_rank_target
  rw [wrap_int_of_range _ hlo hhi]
  simp only
  split
  · rw [wrap_int_of_range _ (by unfold INT_MIN; omega) (by omega)]
    symm
    apply emod_of_decomp _ _ _ ((rank + offset).tdiv size - 1) (by omega) (by omega)
    rw [mul_sub]; omega
  · symm
    exact emod_of_decomp _ _ _ ((rank + offset).tdiv size) (by omega) hlt (by omega)

theorem resolve_spec_trunc_eq_emod (rank size offset : Int) (hs : 0 < size) :
    resolve_spec_trunc rank size offset = (rank + offset) % size := by
  have hd := Int.tmod_add_tdiv (rank + offset) size
  have hgt := tmod_gt_neg (rank + offset) size hs
  unfold resolve_spec_trunc
  rw [Int.tmod_eq_emod (by omega) hs.le, Int.add_emod_self]
  conv_rhs => rw [← hd, Int.add_mul_emod_self_left]

theorem resolve_spec_floor_eq_emod (rank size offset : Int) :
    resolve_spec_floor rank size offset = (rank + offset) % size := by
  unfold resolve_spec_floor
  rw [Int.add_emod_self, Int.emod_emod]

theorem emod_ne_of_diff (rank size a b : Int) (hd : ¬ size ∣ (a - b)) :
    (rank + a) % size ≠ (rank + b) % size := by
  intro h
  apply hd
  have h2 := (Int.emod_eq_emod_iff_emod_sub_eq_zero).1 h
  have h3 := Int.dvd_of_emod_eq_zero h2
  have : rank + a - (rank + b) = a - b := by ring
  rwa [this] at h3

theorem emod_ne_self (rank size a : Int) (h0 : 0 ≤ rank) (h1 : rank < size)
    (hd : ¬ size ∣ a) : (rank + a) % size ≠ rank := by
  have h := emod_ne_of_diff rank size a 0 (by simpa using hd)
  rwa [add_zero, Int.emod_eq_of_lt h0 h1] at h

theorem not_dvd_of_small (size d : Int) (h0 : 0 < d) (h1 : d < size) : ¬ size ∣ d := by
  intro h; have := Int.le_of_dvd h0 h; omega

theorem not_dvd_of_small_neg (size d : Int) (h0 : 0 < d) (h1 : d < size) : ¬ size ∣ -d := by
  intro h; exact not_dvd_of_small size d h0 h1 ((Int.dvd_neg).1 h)

theorem neighbor_rank_ne_self (rank size a : Int) (hs : 0 < size) (hmax : size ≤ INT_MAX)
    (h0 : 0 ≤ rank) (h1 : rank < size) (hlo : INT_MIN ≤ rank + a) (hhi : rank + a ≤ INT_MAX)
    (hd : ¬ size ∣ a) : neighbor_rank rank size a ≠ rank := by
  rw [neighbor_rank_eq_emod _ _ _ hs hmax hlo hhi]
  exact emod_ne_self rank size a h0 h1 hd

theorem neighbor_rank_ne_of_diff (rank size a b : Int) (hs : 0 < size) (hmax : size ≤ INT_MAX)
    (halo : INT_MIN ≤ rank + a) (hahi : rank + a ≤ INT_MAX)
    (hblo : INT_MIN ≤ rank + b) (hbhi : rank + b ≤ INT_MAX)
    (hd : ¬ size ∣ (a - b)) : neighbor_rank rank size a ≠ neighbor_rank rank size b := by
  rw [neighbor_rank_eq_emod _ _ _ hs hmax halo hahi, neighbor_rank_eq_emod _ _ _ hs hmax hblo hbhi]
  exact emod_ne_of_diff rank size a b hd

/-- Inverse offsets undo each other as long as neither sum can leave the 32-bit range. -/
theorem neighbor_rank_inv (rank size offset : Int) (hs : 0 < size) (hmax : size ≤ INT_MAX)
    (h0 : 0 ≤ rank) (h1 : rank < size)
    (hp : size + offset ≤ INT_MAX + 1) (hn : size - offset ≤ INT_MAX + 1) :
    neighbor_rank (neighbor_rank rank size offset) size (-offset) = rank := by
  have hr := neighbor_rank_range rank size offset hs hmax
  rw [neighbor_rank_eq_emod _ size (-offset) hs hmax (by unfold INT_MIN INT_MAX at *; omega)
    (by omega)]
  rw [neighbor_rank_eq_emod _ _ _ hs hmax (by unfold INT_MIN INT_MAX at *; omega) (by omega),
    Int.emod_add_emod]
  have : rank + offset + -offset = rank := by ring
  rw [this]
  exact Int.emod_eq_of_lt h0 h1

theorem neighbor_rank_eq_iff (s r size offset : Int) (hs : 0 < size) (hmax : size ≤ INT_MAX)
    (hs0 : 0 ≤ s) (hs1 : s < size) (hr0 : 0 ≤ r) (hr1 : r < size)
    (hp : size + offset ≤ INT_MAX + 1) (hn : size - offset ≤ INT_MAX + 1) :
    neighbor_rank s size offset = r ↔ s = neighbor_rank r size (-offset) := by
  constructor
  · intro h
    rw [← h, neighbor_rank_inv _ _ _ hs hmax hs0 hs1 hp hn]
  · intro h
    have := neighbor_rank_inv r size (-offset) hs hmax hr0 hr1 (by omega) (by omega)
    rw [neg_neg] at this
    rw [h, this]

/-! ## Claims on `neighbor_rank` -/

/-- C1, as stated, fails at rank 2 of 3 with offset `INT_MAX`: the `int` sum wraps, and the
result 2 is neither congruent to `rank + offset` modulo `size` nor equal to the formula of the
specification, which gives 0. -/
theorem neighbor_rank_resolves_fails_on_wrap :
    ((1 : Int) ≤ 3 ∧ (0 : Int) ≤ 2 ∧ (2 : Int) < 3 ∧ INT_MIN ≤ INT_MAX) ∧
    neighbor_rank 2 3 INT_MAX = 2 ∧
    ¬ (neighbor_rank 2 3 INT_MAX ≡ 2 + INT_MAX [ZMOD 3]) ∧
    neighbor_rank 2 3 INT_MAX ≠ resolve_spec_trunc 2 3 INT_MAX ∧
    neighbor_rank 2 3 INT_MAX ≠ resolve_spec_floor 2 3 INT_MAX := by
  decide

/-- C1 (amended): for every `size` in `[1, INT_MAX]`, every rank in `[0, size)` and every
`int` offset, `neighbor_rank rank size offset` lies in `[0, size)`; and whenever the `int` sum
`rank + offset` does not overflow (`rank + offset ≤ INT_MAX`; it cannot fall below `INT_MIN`)
the result is congruent to `rank + offset` modulo `size` and equals the formula
`((rank + offset) mod size + size) mod size` of the specification under both readings of
`mod`. -/
theorem neighbor_rank_resolves (rank size offset : Int) (hsize : 1 ≤ size)
    (hmax : size ≤ INT_MAX) (h0 : 0 ≤ rank) (_h1 : rank < size)
    (hlo : INT_MIN ≤ offset) (_hhi : offset ≤ INT_MAX) :
    (0 ≤ neighbor_rank rank size offset ∧ neighbor_rank rank size offset < size) ∧
    (rank + offset ≤ INT_MAX →
      neighbor_rank rank size offset ≡ rank + offset [ZMOD size] ∧
      neighbor_rank rank size offset = resolve_spec_trunc rank size offset ∧
      neighbor_rank rank size offset = resolve_spec_floor rank size offset) := by
  have hs : 0 < size := by omega
  refine ⟨neighbor_rank_range rank size offset hs hmax, ?_⟩
  intro hsum
  have he := neighbor_rank_eq_emod rank size offset hs hmax (by omega) hsum
  refine ⟨?_, ?_, ?_⟩
  · rw [he]; exact Int.mod_modEq _ _
  · rw [he, resolve_spec_trunc_eq_emod _ _ _ hs]
  · rw [he, resolve_spec_floor_eq_emod]

/-- Witness of C1 (amended) at rank 0 of 4 with offset -9 (negative, of magnitude above the
size). -/
theorem neighbor_rank_resolves_witness :
    ((1 : Int) ≤ 4 ∧ (4 : Int) ≤ INT_MAX ∧ (0 : Int) ≤ 0 ∧ (0 : Int) < 4 ∧
      INT_MIN ≤ -9 ∧ (-9 : Int) ≤ INT_MAX) ∧
    ((0 ≤ neighbor_rank 0 4 (-9) ∧ neighbor_rank 0 4 (-9) < 4) ∧
    (0 + (-9) ≤ INT_MAX →
      neighbor_rank 0 4 (-9) ≡ 0 + (-9) [ZMOD 4] ∧
      neighbor_rank 0 4 (-9) = resolve_spec_trunc 0 4 (-9) ∧
      neighbor_rank 0 4 (-9) = resolve_spec_floor 0 4 (-9))) :=
  ⟨by decide, neighbor_rank_resolves 0 4 (-9) (by decide) (by decide) (by decide) (by decide)
    (by decide) (by decide)⟩

/-- C2, as stated, fails at rank 2 of 3 with offset `INT_MAX`, which is non-zero and congruent
to `+1` modulo 3: the `int` sum wraps and the rank is resolved to itself. -/
theorem neighbor_rank_self_routes_on_wrap :
    ((2 : Int) ≤ 3 ∧ (0 : Int) ≤ 2 ∧ (2 : Int) < 3) ∧
    INT_MAX ≠ 0 ∧ INT_MAX ≡ 1 [ZMOD 3] ∧ neighbor_rank 2 3 INT_MAX = 2 := by
  decide

/-- C2 (amended): for every `size` in `[2, INT_MAX]` and every rank in `[0, size)`, the rank is
neither its own right (`+1`) nor its own left (`-1`) neighbour; and
`neighbor_rank rank size offset ≠ rank` for every non-zero `int` offset congruent to `+1` or
`-1` modulo `size` for which the `int` sum `rank + offset` does not overflow. -/
theorem neighbor_rank_no_self_routing (rank size : Int) (hsize : 2 ≤ size)
    (hmax : size ≤ INT_MAX) (h0 : 0 ≤ rank) (h1 : rank < size) :
    neighbor_rank rank size 1 ≠ rank ∧ neighbor_rank rank size (-1) ≠ rank ∧
    ∀ offset : Int, INT_MIN ≤ offset → offset ≤ INT_MAX → offset ≠ 0 →
      (offset ≡ 1 [ZMOD size] ∨ offset ≡ -1 [ZMOD size]) → rank + offset ≤ INT_MAX →
      neighbor_rank rank size offset ≠ rank := by
  have hs : 0 < size := by omega
  have key : ∀ offset : Int, INT_MIN ≤ offset →
      (offset ≡ 1 [ZMOD size] ∨ offset ≡ -1 [ZMOD size]) → rank + offset ≤ INT_MAX →
      neighbor_rank rank size offset ≠ rank := by
    intro offset hlo hoff hsum
    apply neighbor_rank_ne_self _ _ _ hs hmax h0 h1 (by omega) hsum
    intro hdvd
    have hz : offset ≡ 0 [ZMOD size] := (Int.modEq_zero_iff_dvd).2 hdvd
    rcases hoff with h | h
    · have h2 : (1 : Int) ≡ 0 [ZMOD size] := h.symm.trans hz
      exact not_dvd_of_small size 1 (by norm_num) (by omega) ((Int.modEq_zero_iff_dvd).1 h2)
    · have h2 : (-1 : Int) ≡ 0 [ZMOD size] := h.symm.trans hz
      exact not_dvd_of_small_neg size 1 (by norm_num) (by omega) ((Int.modEq_zero_iff_dvd).1 h2)
  refine ⟨key 1 (by decide) (Or.inl rfl) (by omega), ?_, fun offset hlo _ _ h hs => key offset hlo h hs⟩
  exact key (-1) (by decide) (Or.inr rfl) (by omega)

/-- Witness of C2 (amended) on the smallest ring, where `+1` and `-1` name the same
neighbour. -/
theorem neighbor_rank_no_self_routing_witness :
    ((2 : Int) ≤ 2 ∧ (2 : Int) ≤ INT_MAX ∧ (0 : Int) ≤ 1 ∧ (1 : Int) < 2) ∧
    (neighbor_rank 1 2 1 ≠ 1 ∧ neighbor_rank 1 2 (-1) ≠ 1 ∧
    ∀ offset : Int, INT_MIN ≤ offset → offset ≤ INT_MAX → offset ≠ 0 →
      (offset ≡ 1 [ZMOD 2] ∨ offset ≡ -1 [ZMOD 2]) → 1 + offset ≤ INT_MAX →
      neighbor_rank 1 2 offset ≠ 1) :=
  ⟨by decide, neighbor_rank_no_self_routing 1 2 (by decide) (by decide) (by decide) (by decide)⟩

/-- C9, as stated, fails in a world of `INT_MAX` ranks at the last rank: the `int` sums
`rank + 2` and `rank + 3` wrap, offset `+2` resolves to the rank itself and offsets `+1` and
`+3` resolve to the same rank. -/
theorem phase4_peers_collide_on_wrap :
    ((4 : Int) ≤ 2147483647 ∧ (0 : Int) ≤ 2147483646 ∧ (2147483646 : Int) < 2147483647) ∧
    neighbor_rank 2147483646 2147483647 2 = 2147483646 ∧
    neighbor_rank 2147483646 2147483647 1 = neighbor_rank 2147483646 2147483647 3 := by
  decide

/-- C9 (amended): for every `size` in `[4, INT_MAX - 1]` and every rank in `[0, size)`, the
three phase-4 send destinations (offsets `+1, +2, +3`) are pairwise distinct and differ from
the rank itself, and so do the three receive sources (offsets `-1, -2, -3`). -/
theorem phase4_peers_distinct (rank size : Int) (hsize : 4 ≤ size)
    (hmax : size ≤ INT_MAX - 1) (h0 : 0 ≤ rank) (h1 : rank < size) :
    (neighbor_rank rank size 1 ≠ neighbor_rank rank size 2 ∧
     neighbor_rank rank size 1 ≠ neighbor_rank rank size 3 ∧
     neighbor_rank rank size 2 ≠ neighbor_rank rank size 3 ∧
     neighbor_rank rank size 1 ≠ rank ∧ neighbor_rank rank size 2 ≠ rank ∧
     neighbor_rank rank size 3 ≠ rank) ∧
    (neighbor_rank rank size (-1) ≠ neighbor_rank rank size (-2) ∧
     neighbor_rank rank size (-1) ≠ neighbor_rank rank size (-3) ∧
     neighbor_rank rank size (-2) ≠ neighbor_rank rank size (-3) ∧
     neighbor_rank rank size (-1) ≠ rank ∧ neighbor_rank rank size (-2) ≠ rank ∧
     neighbor_rank rank size (-3) ≠ rank) := by
  have hs : 0 < size := by omega
  have hm : size ≤ INT_MAX := by omega
  have hI : INT_MIN = -2147483648 := rfl
  have hA : INT_MAX = 2147483647 := rfl
  have hsrc : neighbor_rank rank size (-1) ≠ neighbor_rank rank size (-2) ∧
     neighbor_rank rank size (-1) ≠ neighbor_rank rank size (-3) ∧
     neighbor_rank rank size (-2) ≠ neighbor_rank rank size (-3) ∧
     neighbor_rank rank size (-1) ≠ rank ∧ neighbor_rank rank size (-2) ≠ rank ∧
     neighbor_rank rank size (-3) ≠ rank := by
    refine ⟨?_, ?_, ?_, ?_, ?_, ?_⟩
    · exact neighbor_rank_ne_of_diff _ _ _ _ hs hm (by omega) (by omega) (by omega) (by omega)
        (not_dvd_of_small size 1 (by norm_num) (by omega))
    · exact neighbor_rank_ne_of_diff _ _ _ _ hs hm (by omega) (by omega) (by omega) (by omega)
        (not_dvd_of_small size 2 (by norm_num) (by omega))
    · exact neighbor_rank_ne_of_diff _ _ _ _ hs hm (by omega) (by omega) (by omega) (by omega)
        (not_dvd_of_small size 1 (by norm_num) (by omega))
    · exact neighbor_rank_ne_self _ _ _ hs hm h0 h1 (by omega) (by omega)
        (not_dvd_of_small_neg size 1 (by norm_num) (by omega))
    · exact neighbor_rank_ne_self _ _ _ hs hm h0 h1 (by omega) (by omega)
        (not_dvd_of_small_neg size 2 (by norm_num) (by omega))
    · exact neighbor_rank_ne_self _ _ _ hs hm h0 h1 (by omega) (by omega)
        (not_dvd_of_small_neg size 3 (by norm_num) (by omega))
  have h12 : neighbor_rank rank size 1 ≠ neighbor_rank rank size 2 :=
    neighbor_rank_ne_of_diff _ _ _ _ hs hm (by omega) (by omega) (by omega) (by omega)
      (not_dvd_of_small_neg size 1 (by norm_num) (by omega))
  have h1r : neighbor_rank rank size 1 ≠ rank :=
    neighbor_rank_ne_self _ _ _ hs hm h0 h1 (by omega) (by omega)
      (not_dvd_of_small size 1 (by norm_num) (by omega))
  have h2r : neighbor_rank rank size 2 ≠ rank :=
    neighbor_rank_ne_self _ _ _ hs hm h0 h1 (by omega) (by omega)
      (not_dvd_of_small size 2 (by norm_num) (by omega))
  by_cases hov : rank + 3 ≤ INT_MAX
  · refine ⟨⟨h12, ?_, ?_, h1r, h2r, ?_⟩, hsrc⟩
    · exact neighbor_rank_ne_of_diff _ _ _ _ hs hm (by omega) (by omega) (by omega) hov
        (not_dvd_of_small_neg size 2 (by norm_num) (by omega))
    · exact neighbor_rank_ne_of_diff _ _ _ _ hs hm (by omega) (by omega) (by omega) hov
        (not_dvd_of_small_neg size 1 (by norm_num) (by omega))
    · exact neighbor_rank_ne_self _ _ _ hs hm h0 h1 (by omega) hov
        (not_dvd_of_small size 3 (by norm_num) (by omega))
  · have hr : rank = 2147483645 := by omega
    have hz : size = 2147483646 := by omega
    subst hr hz
    exact ⟨⟨h12, by decide, by decide, h1r, h2r, by decide⟩, hsrc⟩

/-- Witness of C9 (amended) in the largest world it covers, at its last rank, where the sum
`rank + 3` wraps. -/
theorem phase4_peers_distinct_witness :
    ((4 : Int) ≤ 2147483646 ∧ (2147483646 : Int) ≤ INT_MAX - 1 ∧ (0 : Int) ≤ 2147483645 ∧
      (2147483645 : Int) < 2147483646) ∧
    ((neighbor_rank 2147483645 2147483646 1 ≠ neighbor_rank 2147483645 2147483646 2 ∧
     neighbor_rank 2147483645 2147483646 1 ≠ neighbor_rank 2147483645 2147483646 3 ∧
     neighbor_rank 2147483645 2147483646 2 ≠ neighbor_rank 2147483645 2147483646 3 ∧
     neighbor_rank 2147483645 2147483646 1 ≠ 2147483645 ∧
     neighbor_rank 2147483645 2147483646 2 ≠ 2147483645 ∧
     neighbor_rank 2147483645 2147483646 3 ≠ 2147483645) ∧
    (neighbor_rank 2147483645 2147483646 (-1) ≠ neighbor_rank 2147483645 2147483646 (-2) ∧
     neighbor_rank 2147483645 2147483646 (-1) ≠ neighbor_rank 2147483645 2147483646 (-3) ∧
     neighbor_rank 2147483645 2147483646 (-2) ≠ neighbor_rank 2147483645 2147483646 (-3) ∧
     neighbor_rank 2147483645 2147483646 (-1) ≠ 2147483645 ∧
     neighbor_rank 2147483645 2147483646 (-2) ≠ 2147483645 ∧
     neighbor_rank 2147483645 2147483646 (-3) ≠ 2147483645)) :=
  ⟨by decide, phase4_peers_distinct 2147483645 2147483646 (by decide) (by decide) (by decide)
    (by decide)⟩

/-- C10: on 32-bit integers, for `size` in `[1, 2^31 - 1]`, `rank` in `[0, size)` and every
32-bit offset, the result lies in `[0, size)`; whenever the branch `target < 0` is taken, the
sum `target + size` is itself a 32-bit value (the adjustment does not overflow); and when
`rank + offset` does not wrap the result is congruent to `rank + offset` modulo `size`. -/
theorem neighbor_rank_i32_safe (rank size offset : Int)
    (hsize : 1 ≤ size) (hmax : size ≤ INT_MAX) (_h0 : 0 ≤ rank) (_h1 : rank < size)
    (_hlo : INT_MIN ≤ offset) (_hhi : offset ≤ INT_MAX) :
    (0 ≤ neighbor_rank rank size offset ∧ neighbor_rank rank size offset < size) ∧
    (neighbor_rank_target rank size offset < 0 →
      INT_MIN ≤ neighbor_rank_target rank size offset + size ∧
      neighbor_rank_target rank size offset + size ≤ INT_MAX) ∧
    (INT_MIN ≤ rank + offset → rank + offset ≤ INT_MAX →
      neighbor_rank rank size offset ≡ rank + offset [ZMOD size]) := by
  have hs : 0 < size := by omega
  have hlt := Int.tmod_lt_of_pos (wrap_int (rank + offset)) hs
  have hgt := tmod_gt_neg (wrap_int (rank + offset)) size hs
  refine ⟨neighbor_rank_range rank size offset hs hmax, ?_, ?_⟩
  · intro hneg
    unfold neighbor_rank_target at *
    unfold INT_MIN INT_MAX at *; omega
  · intro ha hb
    rw [neighbor_rank_eq_emod _ _ _ hs hmax ha hb]
    exact Int.mod_modEq _ _

/-- Witness of C10 at the largest rank of the largest world, with an offset whose sum with
the rank wraps. -/
theorem neighbor_rank_i32_safe_witness :
    ((1 : Int) ≤ 2147483647 ∧ (2147483647 : Int) ≤ INT_MAX ∧ (0 : Int) ≤ 2147483646 ∧
      (2147483646 : Int) < 2147483647 ∧ INT_MIN ≤ 5 ∧ (5 : Int) ≤ INT_MAX) ∧
    ((0 ≤ neighbor_rank 2147483646 2147483647 5 ∧
      neighbor_rank 2147483646 2147483647 5 < 2147483647) ∧
    (neighbor_rank_target 2147483646 2147483647 5 < 0 →
      INT_MIN ≤ neighbor_rank_target 2147483646 2147483647 5 + 2147483647 ∧
      neighbor_rank_target 2147483646 2147483647 5 + 2147483647 ≤ INT_MAX) ∧
    (INT_MIN ≤ 2147483646 + 5 → 2147483646 + 5 ≤ INT_MAX →
      neighbor_rank 2147483646 2147483647 5 ≡ 2147483646 + 5 [ZMOD 2147483647])) :=
  ⟨by decide, neighbor_rank_i32_safe 2147483646 2147483647 5
    (by decide) (by decide) (by decide) (by decide) (by decide) (by decide)⟩

/-! ## Wait-any draining -/

theorem drain_init_inv : DrainInv drain_init := by
  refine ⟨List.nodup_range _, ?_, ?_, rfl, ?_, List.nodup_nil, ?_, rfl⟩
  · intro x hx; exact List.mem_range.1 hx
  · simp [drain_init]
  · intro x hx; simp [drain_init] at hx
  · intro h hh; simp [drain_init] at hh

theorem wait_any_of_pos (pick : Nat) (pending : List Nat) (h : 0 < pending.length) :
    ∃ index, index ∈ pending ∧ wait_any pick pending = (some index, pending.erase index) := by
  refine ⟨pending.get ⟨pick % pending.length, Nat.mod_lt pick h⟩, List.get_mem _ _ _, ?_⟩
  unfold wait_any
  rw [dif_pos h]

theorem wait_any_nil (pick : Nat) : wait_any pick [] = (none, []) := by
  unfold wait_any
  simp

theorem drain_body_inv (pick : Nat) (st : DrainState) (hinv : DrainInv st)
    (hlt : st.completed < message_count) :
    DrainInv (drain_body pick st) ∧ (drain_body pick st).completed = st.completed + 1 := by
  obtain ⟨hnd, hbound, hcount, hlen, hret, hrnd, hheads, hhl⟩ := hinv
  have hpos : 0 < st.pending.length := by omega
  obtain ⟨index, hmem, hw⟩ := wait_any_of_pos pick st.pending hpos
  have hbody : drain_body pick st =
      { completed := st.completed + 1, pending := st.pending.erase index,
        returned := st.returned ++ [some index],
        heads := st.heads ++ [(st.completed, st.pending)] } := by
    unfold drain_body
    rw [hw]
    rfl
  rw [hbody]
  refine ⟨⟨hnd.erase index, ?_, ?_, ?_, ?_, ?_, ?_, ?_⟩, rfl⟩
  · intro x hx; exact hbound x (List.mem_of_mem_erase hx)
  · show st.completed + 1 + (st.pending.erase index).length = message_count
    rw [List.length_erase_of_mem hmem]; omega
  · show (st.returned ++ [some index]).length = st.completed + 1
    simp [hlen]
  · intro x hx
    rcases List.mem_append.1 hx with h | h
    · obtain ⟨i, rfl, hi, hni⟩ := hret x h
      exact ⟨i, rfl, hi, fun hmem2 => hni (List.mem_of_mem_erase hmem2)⟩
    · have hx2 : x = some index := by simpa using h
      refine ⟨index, hx2, hbound index hmem, ?_⟩
      intro hmem2
      exact ((hnd.mem_erase_iff).1 hmem2).1 rfl
  · refine List.Nodup.append hrnd (List.nodup_singleton _) ?_
    intro x hx hx2
    have hx3 : x = some index := by simpa using hx2
    obtain ⟨i, hxi, _, hni⟩ := hret x hx
    rw [hx3] at hxi
    have : index = i := by simpa using hxi
    exact hni (this ▸ hmem)
  · intro h hh
    rcases List.mem_append.1 hh with h1 | h1
    · exact hheads h h1
    · have h2 : h = (st.completed, st.pending) := by simpa using h1
      subst h2
      show st.pending.length = message_count - st.completed ∧ 0 < message_count - st.completed
      omega
  · show (st.heads ++ [(st.completed, st.pending)]).length = st.completed + 1
    simp [hhl]

theorem drain_loop_exits (choice : Nat → Nat) (fuel : Nat) (st : DrainState) (hinv : DrainInv st)
    (hfuel : message_count - st.completed ≤ fuel) :
    ∃ final, drain_loop choice fuel st = some final ∧ DrainInv final ∧
      final.completed = message_count := by
  induction fuel generalizing st with
  | zero =>
    have hc := hinv.2.2.1
    have hge : ¬ st.completed < message_count := by omega
    exact ⟨st, by simp [drain_loop, hge], hinv, by omega⟩
  | succ n ih =>
    by_cases hlt : st.completed < message_count
    · obtain ⟨hinv2, hc2⟩ := drain_body_inv (choice st.returned.length) st hinv hlt
      obtain ⟨final, hfinal, hfi, hfc⟩ :=
        ih (drain_body (choice st.returned.length) st) hinv2 (by omega)
      exact ⟨final, by simp [drain_loop, hlt, hfinal], hfi, hfc⟩
    · have hc := hinv.2.2.1
      exact ⟨st, by simp [drain_loop, hlt], hinv, by omega⟩

theorem drain_loop_returns (choice : Nat → Nat) (fuel : Nat) (hfuel : message_count ≤ fuel) :
    ∃ final, drain_loop choice fuel drain_init = some final ∧ DrainInv final ∧
      final.completed = message_count :=
  drain_loop_exits choice fuel drain_init drain_init_inv (by simpa [drain_init] using hfuel)

/-- C5: whatever order the environment completes the three receives in, the drain loop of
lines 69-76 exits when given at least `message_count` iterations, and it does so after exactly
`message_count` calls of `wait_any`, with `completed = message_count`; every call returned an
index below `message_count`, no two calls returned the same index, the sentinel was never
returned inside the loop, at every loop head the number of unreported members was
`message_count - completed > 0`, and a further call on the exhausted set returns the
sentinel. -/
theorem drain_loop_exhausts (choice : Nat → Nat) (fuel : Nat) (hfuel : message_count ≤ fuel) :
    ∃ final, drain_loop choice fuel drain_init = some final ∧
      final.returned.length = message_count ∧
      final.completed = message_count ∧
      (∀ x ∈ final.returned, ∃ i, x = some i ∧ i < message_count) ∧
      final.returned.Nodup ∧
      none ∉ final.returned ∧
      (∀ h ∈ final.heads, h.2.length = message_count - h.1 ∧ 0 < message_count - h.1) ∧
      final.heads.length = message_count ∧
      ∀ pick, (wait_any pick final.pending).1 = none := by
  obtain ⟨final, hfinal, hinv, hc⟩ := drain_loop_returns choice fuel hfuel
  obtain ⟨_, _, hcount, hlen, hret, hrnd, hheads, hhl⟩ := hinv
  have hnil : final.pending = [] := List.length_eq_zero.1 (by omega)
  refine ⟨final, hfinal, by omega, hc, ?_, hrnd, ?_, hheads, ?_, ?_⟩
  · intro x hx
    obtain ⟨i, hxi, hi, _⟩ := hret x hx
    exact ⟨i, hxi, hi⟩
  · intro hnone
    obtain ⟨i, hxi, _, _⟩ := hret none hnone
    simp at hxi
  · omega
  · intro pick; rw [hnil, wait_any_nil]

/-- Witness of C5: the drain loop with three iterations allowed and the environment always
completing the first pending receive. -/
theorem drain_loop_exhausts_witness :
    message_count ≤ 3 ∧
    ∃ final, drain_loop (fun _ => 0) 3 drain_init = some final ∧
      final.returned.length = message_count ∧
      final.completed = message_count ∧
      (∀ x ∈ final.returned, ∃ i, x = some i ∧ i < message_count) ∧
      final.returned.Nodup ∧
      none ∉ final.returned ∧
      (∀ h ∈ final.heads, h.2.length = message_count - h.1 ∧ 0 < message_count - h.1) ∧
      final.heads.length = message_count ∧
      ∀ pick, (wait_any pick final.pending).1 = none :=
  ⟨by decide, drain_loop_exhausts (fun _ => 0) 3 (by decide)⟩

/-! ## Matching of posted operations -/

theorem mem_ranks (world_size s : Int) : s ∈ ranks world_size ↔ 0 ≤ s ∧ s < world_size := by
  unfold ranks
  constructor
  · intro h
    obtain ⟨n, hn, rfl⟩ := List.mem_map.1 h
    have := List.mem_range.1 hn
    constructor
    · exact Int.ofNat_nonneg n
    · show (n : Int) < world_size
      omega
  · rintro ⟨h0, h1⟩
    refine List.mem_map.2 ⟨s.toNat, List.mem_range.2 (by omega), ?_⟩
    show (s.toNat : Int) = s
    omega

theorem nodup_ranks (world_size : Int) : (ranks world_size).Nodup := by
  unfold ranks
  exact (List.nodup_range _).map (fun a b h => Int.ofNat.inj h)

theorem filter_flatMap_unique {α β : Type} (l : List α) (g : α → List β) (p : β → Bool)
    (a : α) (b : β) (hl : l.Nodup) (ha : a ∈ l) (hb : (g a).filter p = [b])
    (hothers : ∀ x ∈ l, x ≠ a → (g x).filter p = []) :
    (l.flatMap g).filter p = [b] := by
  induction l with
  | nil => simp at ha
  | cons x xs ih =>
    rw [List.flatMap_cons, List.filter_append]
    have hx : x ∉ xs := (List.nodup_cons.1 hl).1
    have hxs : xs.Nodup := (List.nodup_cons.1 hl).2
    by_cases hxa : x = a
    · subst hxa
      have hrest : (xs.flatMap g).filter p = [] := by
        rw [List.filter_flatMap]
        apply List.flatMap_eq_nil_iff.2
        intro y hy
        exact hothers y (List.mem_cons_of_mem _ hy) (fun h => hx (h ▸ hy))
      rw [hb, hrest]; rfl
    · have ha2 : a ∈ xs := by
        rcases List.mem_cons.1 ha with h | h
        · exact absurd h.symm hxa
        · exact h
      rw [hothers x (List.mem_cons_self _ _) hxa,
        ih hxs ha2 (fun y hy => hothers y (List.mem_cons_of_mem _ hy))]
      rfl

theorem find_of_filter_singleton {β : Type} (l : List β) (p : β → Bool) (b : β)
    (h : l.filter p = [b]) : l.find? p = some b := by
  induction l with
  | nil => simp at h
  | cons x xs ih =>
    by_cases hx : p x = true
    · rw [List.filter_cons_of_pos hx] at h
      rw [List.find?_cons_of_pos _ hx]
      exact congrArg some (List.cons.inj h).1
    · rw [List.filter_cons_of_neg hx] at h
      rw [List.find?_cons_of_neg _ hx]
      exact ih h

theorem multi_sends_eq (s size : Int) :
    multi_sends s size =
      [multi_send s size 0 (addr_payload 0), multi_send s size 1 (addr_payload 1),
       multi_send s size 2 (addr_payload 2)] := rfl

theorem multi_recvs_eq (r size : Int) :
    multi_recvs r size = [multi_recv r size 0, multi_recv r size 1, multi_recv r size 2] := rfl

/-- C3: in a world of `size ≥ 2` ranks (`size` an `int`), for every rank `r`: among the ranks
of the world the only one whose ring send (tag 100, buffer `send_value`, which holds its own
rank) is addressed to `r` is the left neighbour of `r`, the right neighbour of that left
neighbour being `r`; the receive `r` posts (tag 100, from its left neighbour) is matched by
that send alone, so that when the wait-all returns `recv_value` holds the rank of the left
neighbour of `r`. -/
theorem ring_exchange_delivers_left (r size : Int) (hsize : 2 ≤ size) (hmax : size ≤ INT_MAX)
    (h0 : 0 ≤ r) (h1 : r < size) :
    (∀ s, 0 ≤ s → s < size →
      ((ring_send s size).dst = r ↔ s = neighbor_rank r size (-1))) ∧
    neighbor_rank (neighbor_rank r size (-1)) size 1 = r ∧
    (posted_ring_sends size).filter (matches_recv (ring_recv r size)) =
      [ring_send (neighbor_rank r size (-1)) size] ∧
    (ring_send (neighbor_rank r size (-1)) size).tag = 100 ∧
    recv_value r size = some (neighbor_rank r size (-1)) := by
  have hs : 0 < size := by omega
  have hinv : neighbor_rank (neighbor_rank r size (-1)) size 1 = r := by
    simpa using neighbor_rank_inv r size (-1) hs hmax h0 h1 (by omega) (by omega)
  have hleft := neighbor_rank_range r size (-1) hs hmax
  have hfilter : (posted_ring_sends size).filter (matches_recv (ring_recv r size)) =
      [ring_send (neighbor_rank r size (-1)) size] := by
    unfold posted_ring_sends
    rw [List.map_eq_flatMap]
    apply filter_flatMap_unique _ _ _ (neighbor_rank r size (-1)) _ (nodup_ranks size)
      ((mem_ranks _ _).2 hleft)
    · simp [matches_recv, ring_send, ring_recv, left, right, hinv]
    · intro x _ hx
      simp [matches_recv, ring_send, ring_recv, left, right, hx]
  refine ⟨?_, hinv, hfilter, rfl, ?_⟩
  · intro s hs0 hs1
    have := neighbor_rank_eq_iff s r size 1 hs hmax hs0 hs1 h0 h1 (by omega) (by omega)
    simpa [ring_send, right] using this
  · unfold recv_value deliver
    rw [find_of_filter_singleton _ _ _ hfilter]
    rfl

/-- Witness of C3: rank 0 of a world of four receives the rank of its left neighbour, 3. -/
theorem ring_exchange_delivers_left_witness :
    ((2 : Int) ≤ 4 ∧ (4 : Int) ≤ INT_MAX ∧ (0 : Int) ≤ 0 ∧ (0 : Int) < 4) ∧
    ((∀ s, 0 ≤ s → s < 4 →
      ((ring_send s 4).dst = 0 ↔ s = neighbor_rank 0 4 (-1))) ∧
    neighbor_rank (neighbor_rank 0 4 (-1)) 4 1 = 0 ∧
    (posted_ring_sends 4).filter (matches_recv (ring_recv 0 4)) =
      [ring_send (neighbor_rank 0 4 (-1)) 4] ∧
    (ring_send (neighbor_rank 0 4 (-1)) 4).tag = 100 ∧
    recv_value 0 4 = some (neighbor_rank 0 4 (-1))) :=
  ⟨by decide,
    ring_exchange_delivers_left 0 4 (by decide) (by decide) (by decide) (by decide)⟩

/-- C8, as stated, fails in a world of `INT_MAX - 1` ranks at rank 2 and index 2: the receive
names the source `s = neighbor_rank 2 size (-3)`, the last rank, and the index-2 send of `s`
is not addressed to rank 2, because the `int` sum `s + 3` wraps. -/
theorem multi_exchange_mismatch_on_wrap :
    ((2 : Int) ≤ 2147483646 ∧ (0 : Int) ≤ 2 ∧ (2 : Int) < 2147483646 ∧ 2 < message_count) ∧
    (multi_recv 2 2147483646 2).src = 2147483645 ∧
    (multi_send 2147483645 2147483646 2 (addr_payload 2)).dst = 2147483644 ∧
    neighbor_rank (neighbor_rank 2 2147483646 (-3)) 2147483646 3 ≠ 2 := by
  decide

/-- C8 (amended): in a world of `size` ranks with `2 ≤ size ≤ INT_MAX - 2` (sizes below 4,
where offsets wrap around the ring, included), for every rank `r` and every index
`i < message_count`: the receive `r` posts with index `i` is matched by exactly one of the
sends posted in the world, the index-`i` send of rank `s = neighbor_rank r size (-(i + 1))`,
whose destination is `r`; and the index-`i` send of `r` is matched by exactly one posted
receive, the index-`i` receive of its destination. Nothing is stated about the value
delivered into `waitany_values[i]`. -/
theorem multi_exchange_matching (r size : Int) (i : Nat) (hsize : 2 ≤ size)
    (hmax : size ≤ INT_MAX - 2) (h0 : 0 ≤ r) (h1 : r < size) (hi : i < message_count) :
    (multi_recvs r size)[i]? = some (multi_recv r size i) ∧
    (multi_sends (neighbor_rank r size (-((i : Int) + 1))) size)[i]? =
      some (multi_send (neighbor_rank r size (-((i : Int) + 1))) size i (addr_payload i)) ∧
    (posted_multi_sends size).filter (matches_recv (multi_recv r size i)) =
      [multi_send (neighbor_rank r size (-((i : Int) + 1))) size i (addr_payload i)] ∧
    neighbor_rank (neighbor_rank r size (-((i : Int) + 1))) size ((i : Int) + 1) = r ∧
    (multi_sends r size)[i]? = some (multi_send r size i (addr_payload i)) ∧
    (posted_multi_recvs size).filter
        (fun rv => matches_recv rv (multi_send r size i (addr_payload i))) =
      [multi_recv (neighbor_rank r size ((i : Int) + 1)) size i] := by
  have hs : 0 < size := by omega
  have hm : size ≤ INT_MAX := by omega
  have hinv : ∀ k : Int, -3 ≤ k → k ≤ 3 →
      neighbor_rank (neighbor_rank r size (-k)) size k = r := by
    intro k hk1 hk2
    simpa using neighbor_rank_inv r size (-k) hs hm h0 h1 (by omega) (by omega)
  have hinv2 : ∀ k : Int, -3 ≤ k → k ≤ 3 →
      neighbor_rank (neighbor_rank r size k) size (-k) = r :=
    fun k hk1 hk2 => neighbor_rank_inv r size k hs hm h0 h1 (by omega) (by omega)
  have hsends : ∀ s, (multi_sends s size)[i]? = some (multi_send s size i (addr_payload i)) := by
    intro s
    rw [multi_sends_eq]
    unfold message_count at hi
    interval_cases i <;> rfl
  have hith : (multi_recvs r size)[i]? = some (multi_recv r size i) := by
    rw [multi_recvs_eq]
    unfold message_count at hi
    interval_cases i <;> rfl
  refine ⟨hith, hsends _, ?_, ?_, hsends _, ?_⟩
  · unfold posted_multi_sends
    apply filter_flatMap_unique _ _ _ (neighbor_rank r size (-((i : Int) + 1))) _
      (nodup_ranks size) ((mem_ranks _ _).2 (neighbor_rank_range _ _ _ hs hm))
    · rw [multi_sends_eq]
      have e1 := hinv 1 (by norm_num) (by norm_num)
      have e2 := hinv 2 (by norm_num) (by norm_num)
      have e3 := hinv 3 (by norm_num) (by norm_num)
      unfold message_count at hi
      interval_cases i <;> simp [matches_recv, multi_send, multi_recv, addr_payload, e1, e2, e3]
    · intro x _ hx
      rw [multi_sends_eq]
      have hx2 : ¬ x = neighbor_rank r size (-1 + -(i : Int)) := by
        rwa [show (-1 + -(i : Int)) = -((i : Int) + 1) by ring]
      simp [matches_recv, multi_send, multi_recv, hx2]
  · unfold message_count at hi
    exact hinv _ (by omega) (by omega)
  · unfold posted_multi_recvs
    apply filter_flatMap_unique _ _ _ (neighbor_rank r size ((i : Int) + 1)) _
      (nodup_ranks size) ((mem_ranks _ _).2 (neighbor_rank_range _ _ _ hs hm))
    · rw [multi_recvs_eq]
      have e1 := hinv2 1 (by norm_num) (by norm_num)
      have e2 := hinv2 2 (by norm_num) (by norm_num)
      have e3 := hinv2 3 (by norm_num) (by norm_num)
      unfold message_count at hi
      interval_cases i <;> simp [matches_recv, multi_send, multi_recv, e1, e2, e3]
    · intro x _ hx
      rw [multi_recvs_eq]
      have hx2 : ¬ neighbor_rank r size ((i : Int) + 1) = x := fun h => hx h.symm
      simp [matches_recv, multi_send, multi_recv, hx2]

/-- Witness of C8 (amended) in a world of two ranks, where the offset of index 1 wraps around
the ring onto the rank itself. -/
theorem multi_exchange_matching_witness :
    ((2 : Int) ≤ 2 ∧ (2 : Int) ≤ INT_MAX - 2 ∧ (0 : Int) ≤ 1 ∧ (1 : Int) < 2 ∧
      1 < message_count) ∧
    ((multi_recvs 1 2)[1]? = some (multi_recv 1 2 1) ∧
    (multi_sends (neighbor_rank 1 2 (-(((1 : Nat) : Int) + 1))) 2)[1]? =
      some (multi_send (neighbor_rank 1 2 (-(((1 : Nat) : Int) + 1))) 2 1 (addr_payload 1)) ∧
    (posted_multi_sends 2).filter (matches_recv (multi_recv 1 2 1)) =
      [multi_send (neighbor_rank 1 2 (-(((1 : Nat) : Int) + 1))) 2 1 (addr_payload 1)] ∧
    neighbor_rank (neighbor_rank 1 2 (-(((1 : Nat) : Int) + 1))) 2 (((1 : Nat) : Int) + 1) = 1 ∧
    (multi_sends 1 2)[1]? = some (multi_send 1 2 1 (addr_payload 1)) ∧
    (posted_multi_recvs 2).filter
        (fun rv => matches_recv rv (multi_send 1 2 1 (addr_payload 1))) =
      [multi_recv (neighbor_rank 1 2 (((1 : Nat) : Int) + 1)) 2 1]) :=
  ⟨by decide, multi_exchange_matching 1 2 1 (by decide) (by decide) (by decide) (by decide)
    (by decide)⟩

theorem payload_dead_at_wait (s size : Int) (i : Nat) (hi : i < message_count) :
    Memory.read (phase4_posts s size).mem (multi_send s size i (addr_payload i)).buf = none := by
  unfold message_count at hi
  interval_cases i <;> rfl

/-- The value delivered into `waitany_values[i]` is not determined by the program: the buffer
of the matching send is an object whose lifetime has ended when the sender enters the wait
that completes the send. -/
theorem waitany_value_undetermined (r size : Int) (i : Nat) (hsize : 2 ≤ size)
    (hmax : size ≤ INT_MAX - 2) (h0 : 0 ≤ r) (h1 : r < size) (hi : i < message_count) :
    waitany_value r size i = none := by
  have hs : 0 < size := by omega
  have hm : size ≤ INT_MAX := by omega
  have hinv : ∀ k : Int, -3 ≤ k → k ≤ 3 →
      neighbor_rank (neighbor_rank r size (-k)) size k = r := by
    intro k hk1 hk2
    simpa using neighbor_rank_inv r size (-k) hs hm h0 h1 (by omega) (by omega)
  have hith : (multi_recvs r size)[i]? = some (multi_recv r size i) := by
    rw [multi_recvs_eq]
    unfold message_count at hi
    interval_cases i <;> rfl
  have hfilter : (posted_multi_sends size).filter (matches_recv (multi_recv r size i)) =
      [multi_send (neighbor_rank r size (-((i : Int) + 1))) size i (addr_payload i)] := by
    unfold posted_multi_sends
    apply filter_flatMap_unique _ _ _ (neighbor_rank r size (-((i : Int) + 1))) _
      (nodup_ranks size) ((mem_ranks _ _).2 (neighbor_rank_range _ _ _ hs hm))
    · rw [multi_sends_eq]
      have e1 := hinv 1 (by norm_num) (by norm_num)
      have e2 := hinv 2 (by norm_num) (by norm_num)
      have e3 := hinv 3 (by norm_num) (by norm_num)
      unfold message_count at hi
      interval_cases i <;> simp [matches_recv, multi_send, multi_recv, addr_payload, e1, e2, e3]
    · intro x _ hx
      rw [multi_sends_eq]
      have hx2 : ¬ x = neighbor_rank r size (-1 + -(i : Int)) := by
        rwa [show (-1 + -(i : Int)) = -((i : Int) + 1) by ring]
      simp [matches_recv, multi_send, multi_recv, hx2]
  unfold waitany_value
  rw [hith, Option.some_bind]
  unfold deliver
  rw [find_of_filter_singleton _ _ _ hfilter, Option.some_bind]
  exact payload_dead_at_wait _ size i hi

/-! ## Reduction -/

theorem two_mul_sum_range (n : Nat) :
    2 * ((List.range n).map Int.ofNat).sum = (n : Int) * ((n : Int) - 1) := by
  induction n with
  | zero => simp
  | succ k ih =>
    rw [List.range_succ, List.map_append, List.sum_append, mul_add, ih]
    simp only [List.map_cons, List.map_nil, List.sum_cons, List.sum_nil, Int.ofNat_eq_coe]
    push_cast
    ring

theorem sum_of_ranks (N : Int) (hN : 0 ≤ N) :
    allreduce_sum ((ranks N).map local_sum) = N * (N - 1) / 2 := by
  have h := two_mul_sum_range N.toNat
  rw [Int.toNat_of_nonneg hN] at h
  have hmap : (ranks N).map local_sum = ranks N := by
    unfold local_sum send_value
    simp
  unfold allreduce_sum
  rw [hmap]
  unfold ranks
  generalize N * (N - 1) = P at h
  omega

theorem global_sum_eq_wrap (r N : Int) (hN : 0 ≤ N) :
    global_sum r N = wrap_int (N * (N - 1) / 2) := by
  unfold global_sum
  rw [sum_of_ranks N hN]

theorem global_sum_eq (r N : Int) (h0 : 0 ≤ N) (h1 : N ≤ 65536) :
    global_sum r N = N * (N - 1) / 2 := by
  rw [global_sum_eq_wrap r N h0]
  have hP : N * (N - 1) ≤ 65536 * 65535 := by nlinarith
  have hQ : 0 ≤ N * (N - 1) + N := by nlinarith
  apply wrap_int_of_range
  · unfold INT_MIN
    generalize N * (N - 1) = P at hP hQ
    omega
  · unfold INT_MAX
    generalize N * (N - 1) = P at hP hQ
    omega

/-! ## The whole run -/

theorem main_success (world_rank world_size : Int) (choice : Nat → Nat) (reduced : Int)
    (fuel : Nat) (h : 2 ≤ world_size) (hfuel : message_count ≤ fuel) :
    ∃ out, main world_rank world_size choice reduced fuel = some out ∧
      out.status = EXIT_SUCCESS ∧
      stdout_lines out.calls =
        if world_rank = 0 then
          ["[collective_comm_demo] world_size=" ++ toString world_size ++ "\n",
           "[collective_comm_demo] global sum=" ++ toString reduced ++ "\n"]
        else [] := by
  obtain ⟨final, hfinal, hinv, hc⟩ := drain_loop_returns choice fuel hfuel
  have hlen : final.returned.length = message_count := by rw [hinv.2.2.2.1, hc]
  have hnot : ¬ world_size < 2 := by omega
  unfold main
  simp only [if_neg hnot, hfinal]
  refine ⟨_, rfl, rfl, ?_⟩
  rw [hlen]
  by_cases h0 : world_rank = 0
  · simp only [if_pos h0]
    rfl
  · simp only [if_neg h0]
    rfl

/-- C6, as stated, fails in a world of 65537 ranks: the sum of the ranks, 2147516416, is above
`INT_MAX`, and the `int` that `global_sum` holds is -2147450880. -/
theorem allreduce_sum_overflows :
    (2 : Int) ≤ 65537 ∧
    (65537 : Int) * (65537 - 1) / 2 = 2147516416 ∧
    global_sum 0 65537 = -2147450880 ∧
    global_sum 0 65537 ≠ 65537 * (65537 - 1) / 2 := by
  have h := global_sum_eq_wrap 0 65537 (by decide)
  refine ⟨by decide, by decide, ?_, ?_⟩
  · rw [h]; decide
  · rw [h]; decide

/-- C6 (amended): in a world of `N` ranks with `2 ≤ N ≤ 65536`, each contributing
`local_sum = world_rank`, the sum the all-reduce stores in the `int` `global_sum` is
`N * (N - 1) / 2` on every rank, the same on all ranks; in a world of four, whatever the
completion order, rank 0 ends with success and prints `world_size=4` and `global sum=6`. -/
theorem allreduce_sum_of_ranks (N : Int) (hN : 2 ≤ N) (hmax : N ≤ 65536) :
    (∀ r, 0 ≤ r → r < N → global_sum r N = N * (N - 1) / 2) ∧
    (∀ r q, global_sum r N = global_sum q N) ∧
    global_sum 0 4 = 6 ∧
    (∀ (choice : Int → Nat → Nat) (fuel : Nat), message_count ≤ fuel →
      ∃ out, (run 4 choice fuel)[0]? = some (some out) ∧ out.status = EXIT_SUCCESS ∧
        stdout_lines out.calls =
          ["[collective_comm_demo] world_size=4\n", "[collective_comm_demo] global sum=6\n"]) := by
  refine ⟨fun r _ _ => global_sum_eq r N (by omega) hmax, fun _ _ => rfl, by decide, ?_⟩
  intro choice fuel hfuel
  obtain ⟨out, hout, hstatus, hlines⟩ :=
    main_success 0 4 (choice 0) (global_sum 0 4) fuel (by decide) hfuel
  refine ⟨out, ?_, hstatus, ?_⟩
  · show (run 4 choice fuel)[0]? = some (some out)
    rw [← hout]
    rfl
  · rw [hlines]
    decide

/-- Witness of C6 (amended) in the largest world it covers. -/
theorem allreduce_sum_of_ranks_witness :
    ((2 : Int) ≤ 65536 ∧ (65536 : Int) ≤ 65536) ∧
    ((∀ r, 0 ≤ r → r < 65536 → global_sum r 65536 = 65536 * (65536 - 1) / 2) ∧
    (∀ r q, global_sum r 65536 = global_sum q 65536) ∧
    global_sum 0 4 = 6 ∧
    (∀ (choice : Int → Nat → Nat) (fuel : Nat), message_count ≤ fuel →
      ∃ out, (run 4 choice fuel)[0]? = some (some out) ∧ out.status = EXIT_SUCCESS ∧
        stdout_lines out.calls =
          ["[collective_comm_demo] world_size=4\n", "[collective_comm_demo] global sum=6\n"])) :=
  ⟨by decide, allreduce_sum_of_ranks 65536 (by decide) (by decide)⟩

/-- C7: on every rank and for every world size, when the posting loops of phase 4 are over
(and hence when the wait-all of line 77 over `send_requests` is entered, no object being
created or ended in between) the buffer of each of the three sends is a distinct object whose
lifetime has ended: it is not live and no value can be read from it. The receive buffers
`waitany_values[i]` and the two ring buffers are live. -/
theorem phase4_send_buffers_dead (world_rank world_size : Int) :
    (phase4_posts world_rank world_size).send_requests.map (fun q => q.buf) = [5, 6, 7] ∧
    (phase4_posts world_rank world_size).send_requests.map
      (fun q => Memory.is_live (phase4_posts world_rank world_size).mem q.buf)
        = [false, false, false] ∧
    (phase4_posts world_rank world_size).send_requests.map
      (fun q => Memory.read (phase4_posts world_rank world_size).mem q.buf)
        = [none, none, none] ∧
    (phase4_posts world_rank world_size).waitany_requests.map
      (fun q => Memory.is_live (phase4_posts world_rank world_size).mem q.buf)
        = [true, true, true] ∧
    Memory.is_live (phase4_posts world_rank world_size).mem
      (ring_requests world_rank world_size).1.buf = true ∧
    Memory.read (phase4_posts world_rank world_size).mem
      (ring_requests world_rank world_size).2.buf = some world_rank :=
  ⟨rfl, rfl, rfl, rfl, rfl, rfl⟩

end CollectiveCommDemo
